import Mathlib

/-!
A verification model of rd_clip_sample.py, a CLIP guided diffusion sampling
script.  Pure string processing (the prompt parser) is embedded directly;
tensors are embedded as functions from an index type to the scalars; the
external collaborators (the diffusion model, the CLIP encoders, jax.grad,
jax.image resampling, the schedule builder) appear as parameters, exactly at
the interface the script calls them.
-/

deriving instance DecidableEq for Except

/-- Dynamic-typing errors the Python runtime raises while the script parses
prompts: `attributeError` models calling a string method on a non-string
value (AttributeError), `valueError` models a failed float conversion
(ValueError), which is the malformed-prompt failure of the specification. -/
inductive PyError where
  | attributeError
  | valueError
  deriving DecidableEq

/-- The space character. -/
def spaceChar : Char := Char.ofNat 32

/-- Python str.split with a one-character separator: splits on every
occurrence of the separator and keeps empty pieces, so the result is never
empty.  Character-list level model of the split calls in parse_prompts
(src/rd_clip_sample.py lines 38 and 44). -/
def pySplit (sep : Char) : List Char → List (List Char)
  | [] => [[]]
  | c :: rest =>
    let groups := pySplit sep rest
    if c = sep then [] :: groups
    else
      match groups with
      | [] => [[c]]
      | g :: gs => (c :: g) :: gs

/-- String wrapper for pySplit. -/
def pySplitStr (s : String) (sep : Char) : List String :=
  (pySplit sep s.toList).map String.mk

/-- Python str.lstrip with a space argument: drop leading spaces
(src line 50). -/
def lstripSpaces (s : String) : String :=
  String.mk (s.toList.dropWhile (fun c => c == spaceChar))

/-- Python str.rstrip with a space argument: drop trailing spaces
(src line 50). -/
def rstripSpaces (s : String) : String :=
  String.mk ((s.toList.reverse.dropWhile (fun c => c == spaceChar)).reverse)

/-- Base-10 value of a digit list. -/
def digitsToNat (cs : List Char) : ℕ :=
  cs.foldl (fun a c => 10 * a + (c.toNat - 48)) 0

/-- The Python builtin float conversion (external to this repository, called
at src line 51), modelled on plain decimal numerals: optional surrounding
spaces, an optional sign, digits with an optional fraction part.  Every
other string is rejected, which is exactly the malformed-weight failure the
specification calls MalformedPromptError. -/
def parseFloat (s : String) : Option ℚ :=
  let stripped :=
    ((s.toList.dropWhile (fun c => c == spaceChar)).reverse.dropWhile
      (fun c => c == spaceChar)).reverse
  let signAndRest : ℚ × List Char :=
    match stripped with
    | '-' :: rest => (-1, rest)
    | '+' :: rest => (1, rest)
    | rest => (1, rest)
  let sign := signAndRest.1
  let cs := signAndRest.2
  let intPart := cs.takeWhile Char.isDigit
  let rest := cs.dropWhile Char.isDigit
  match rest with
  | [] => if intPart.isEmpty then none else some (sign * digitsToNat intPart)
  | '.' :: frac =>
    if frac.all Char.isDigit && !(intPart.isEmpty && frac.isEmpty) then
      some (sign * ((digitsToNat intPart : ℚ) + (digitsToNat frac : ℚ) / (10 ^ frac.length)))
    else none
  | _ => none

/-- The per-segment loop of parse_prompts (src lines 43-51).  Each segment is
split on the colon.  With exactly two parts the code strips the text part
and converts the weight with float, so a non-numeric weight raises
ValueError.  With any other number of parts the code binds the split list
itself to p (`p = prompt` after `prompt = prompt.split(':')`) and then calls
p.lstrip, a string method, on that list, which raises AttributeError. -/
def parseSegs : List String → Except PyError (List String × List ℚ)
  | [] => Except.ok ([], [])
  | seg :: rest =>
    match pySplitStr seg ':' with
    | [p, w] =>
      match parseFloat w with
      | some q =>
        match parseSegs rest with
        | Except.ok pw => Except.ok (rstripSpaces (lstripSpaces p) :: pw.1, q :: pw.2)
        | Except.error e => Except.error e
      | none => Except.error PyError.valueError
    | _ => Except.error PyError.attributeError

/-- parse_prompts (src lines 35-52).  When splitting on the pipe returns the
whole input unchanged (no pipe present, `splt == [prompts]`), the entire
string is one prompt with weight 1, with no validation of any colon suffix;
otherwise every pipe-separated segment goes through the loop of parseSegs. -/
def parse_prompts (prompts : String) : Except PyError (List String × List ℚ) :=
  let splt := pySplitStr prompts '|'
  if splt = [prompts] then Except.ok ([prompts], [1])
  else parseSegs splt

/-- The statements of main (src lines 105-194) in source order, at the
granularity the ordering claims need. -/
inductive MainPhase where
  | loadModelParams   -- get_model and load_params, lines 105-109
  | loadClipModel     -- clip_jax.load, line 111
  | parseTextPrompts  -- parse_prompts on args.prompt, line 121
  | embedTextPrompts  -- text_fn over the parsed prompts, lines 122-123
  | loadInitImage     -- lines 125-128
  | makeSeedKey       -- jax.random.PRNGKey, line 130
  | parseImageTargets -- parse_prompts on args.target_img, line 136
  | embedImageTargets -- lines 137-140
  | runSampling       -- run_all, line 194
  deriving DecidableEq

/-- The order in which main executes its phases, read off src lines 105-194. -/
def mainPhases : List MainPhase :=
  [MainPhase.loadModelParams, MainPhase.loadClipModel, MainPhase.parseTextPrompts,
   MainPhase.embedTextPrompts, MainPhase.loadInitImage, MainPhase.makeSeedKey,
   MainPhase.parseImageTargets, MainPhase.embedImageTargets, MainPhase.runSampling]

/-- Position of a phase in the execution order of main. -/
def phaseIdx (p : MainPhase) : ℕ :=
  mainPhases.findIdx (fun q => q == p)

/-- The image-target guard of main (src lines 101 and 135-140).  argparse
gives args.target_img the value None when the flag is absent, modelled as an
Option String.  The code guards with `args.target_img != ""`, which is true
for None, and then calls parse_prompts on the value; for None the first
statement of parse_prompts is None.split, which raises AttributeError.  The
ok result carries the parsed (path, weight) lists, with none standing for
the documented no-image-targets path. -/
def collectImageTargets (target_img : Option String) :
    Except PyError (Option (List String × List ℚ)) :=
  if target_img ≠ some "" then
    match target_img with
    | none => Except.error PyError.attributeError
    | some s => (parse_prompts s).map (fun r => some r)
  else Except.ok none

/-- C3: evaluating the parser at the delimited prompt "a cat | a dog".  The
code raises AttributeError, because for a segment that does not split on the
colon into exactly two parts the default-weight branch binds the split list
rather than the segment text and calls lstrip on it; the documented result
would be the two stripped prompts with default weight 1.0. -/
theorem parse_prompts_pipe_default_weight_bug :
    parse_prompts "a cat | a dog" = Except.error PyError.attributeError := by
  decide

/-- C4 counterexample: an input whose colon-separated weight suffix is not
numeric does not in general raise.  Undelimited input takes the
one-prompt branch of parse_prompts with no weight validation at all, so
parse_prompts "x:notanumber" returns ok (["x:notanumber"], [1]); moreover in
main the checkpoint loading phase precedes the prompt-parsing phase, so the
error cannot be surfaced before model work begins. -/
theorem parse_prompts_nonnumeric_counterexample :
    parse_prompts "x:notanumber" = Except.ok (["x:notanumber"], [1]) ∧
    phaseIdx MainPhase.loadModelParams < phaseIdx MainPhase.parseTextPrompts := by
  decide

/-- C4 amended: for a delimited input (the pipe split differs from the whole
string) in which every segment splits on the colon into exactly two parts
and some segment has a non-numeric weight, parse_prompts raises the
malformed-weight error (ValueError); the error is surfaced at parse time,
before sampling runs, though after the checkpoint and embedding model have
been loaded. -/
theorem parse_prompts_malformed_weight_raises (s : String)
    (hdelim : pySplitStr s '|' ≠ [s])
    (hparts : ∀ seg ∈ pySplitStr s '|', (pySplitStr seg ':').length = 2)
    (hbad : ∃ seg ∈ pySplitStr s '|', parseFloat ((pySplitStr seg ':').getD 1 "") = none) :
    parse_prompts s = Except.error PyError.valueError ∧
    phaseIdx MainPhase.parseTextPrompts < phaseIdx MainPhase.runSampling ∧
    phaseIdx MainPhase.loadModelParams < phaseIdx MainPhase.parseTextPrompts := by
  refine ⟨?_, by decide, by decide⟩
  rw [parse_prompts]
  simp only [if_neg hdelim]
  revert hparts hbad
  induction pySplitStr s '|' with
  | nil => intro _ hbad; simp at hbad
  | cons seg rest ih =>
    intro hparts hbad
    obtain ⟨p, w, hpw⟩ := List.length_eq_two.mp (hparts seg (by simp))
    rcases hfw : parseFloat w with _ | q
    · simp only [parseSegs, hpw, hfw]
    · have hrest : ∃ seg ∈ rest, parseFloat ((pySplitStr seg ':').getD 1 "") = none := by
        rcases hbad with ⟨seg0, hseg0, hbad0⟩
        rcases List.mem_cons.mp hseg0 with h | h
        · subst h
          rw [hpw] at hbad0
          simp only [List.getD_cons_succ, List.getD_cons_zero] at hbad0
          rw [hfw] at hbad0
          exact absurd hbad0 (by simp)
        · exact ⟨seg0, h, hbad0⟩
      have htail := ih (fun seg0 h0 => hparts seg0 (List.mem_cons_of_mem _ h0)) hrest
      simp only [parseSegs, hpw, hfw, htail]

/-- C10: when the program is invoked without the image-target flag the
parsed value is None, the guard comparing it with the empty string treats it
as a present target specification, parse_prompts receives None and raises
AttributeError, so the run fails rather than taking the documented
no-image-targets path; the failing phase precedes the sampling phase. -/
theorem target_img_none_guard :
    collectImageTargets none = Except.error PyError.attributeError ∧
    (none : Option String) ≠ some "" ∧
    collectImageTargets none ≠ Except.ok none ∧
    phaseIdx MainPhase.parseImageTargets < phaseIdx MainPhase.runSampling := by
  decide

/-- C4 amended, witnessed at the delimited input "x:notanumber|y:1". -/
theorem parse_prompts_malformed_weight_raises_witness :
    parse_prompts "x:notanumber|y:1" = Except.error PyError.valueError ∧
    phaseIdx MainPhase.parseTextPrompts < phaseIdx MainPhase.runSampling ∧
    phaseIdx MainPhase.loadModelParams < phaseIdx MainPhase.parseTextPrompts :=
  parse_prompts_malformed_weight_raises "x:notanumber|y:1" (by decide) (by decide) (by decide)

/-- norm2 (src lines 65-67): normalizes a vector to the unit sphere by
dividing by the square root of the sum of squares; the reduction over the
last axis is modelled for one example of dimension n, real arithmetic
standing for the floating-point arithmetic of the script. -/
noncomputable def norm2 {n : ℕ} (x : Fin n → ℝ) : Fin n → ℝ :=
  fun i => x i / Real.sqrt (∑ j, x j ^ 2)

/-- spherical_dist_loss (src lines 70-72) for one pair of embedding vectors:
half the squared arccos of the inner product of the normalized inputs. -/
noncomputable def spherical_dist_loss {n : ℕ} (x y : Fin n → ℝ) : ℝ :=
  Real.arccos (∑ i, norm2 x i * norm2 y i) ^ 2 / 2

lemma sum_sq_pos_of_ne_zero {n : ℕ} {x : Fin n → ℝ} (hx : x ≠ 0) :
    0 < ∑ j, x j ^ 2 := by
  obtain ⟨i0, hi0⟩ := Function.ne_iff.mp hx
  refine Finset.sum_pos' (fun j _ => sq_nonneg (x j)) ⟨i0, Finset.mem_univ i0, ?_⟩
  exact lt_of_le_of_ne (sq_nonneg (x i0)) (Ne.symm (pow_ne_zero 2 hi0))

lemma norm2_dot_self {n : ℕ} {x : Fin n → ℝ} (hx : x ≠ 0) :
    ∑ i, norm2 x i * norm2 x i = 1 := by
  have hS : 0 < ∑ j, x j ^ 2 := sum_sq_pos_of_ne_zero hx
  have hs : Real.sqrt (∑ j, x j ^ 2) * Real.sqrt (∑ j, x j ^ 2) = ∑ j, x j ^ 2 :=
    Real.mul_self_sqrt hS.le
  simp only [norm2]
  calc ∑ i, x i / Real.sqrt (∑ j, x j ^ 2) * (x i / Real.sqrt (∑ j, x j ^ 2))
      = ∑ i, x i * x i / (Real.sqrt (∑ j, x j ^ 2) * Real.sqrt (∑ j, x j ^ 2)) :=
        Finset.sum_congr rfl (fun i _ => div_mul_div_comm _ _ _ _)
    _ = (∑ i, x i * x i) / (∑ j, x j ^ 2) := by rw [hs, Finset.sum_div]
    _ = (∑ i, x i ^ 2) / (∑ j, x j ^ 2) := by
        rw [Finset.sum_congr rfl (fun i _ => (pow_two (x i)).symm)]
    _ = 1 := div_self (ne_of_gt hS)

lemma norm2_neg {n : ℕ} (x : Fin n → ℝ) : norm2 (-x) = fun i => -norm2 x i := by
  funext i
  simp only [norm2, Pi.neg_apply]
  rw [Finset.sum_congr rfl (fun j _ => neg_sq (x j)), neg_div]

/-- C5: the scorer is zero on identical nonzero inputs, maximal at pi
squared over two on antipodal inputs, and for any second argument the
per-example output lies between zero and pi squared over two. -/
theorem spherical_dist_loss_bounds {n : ℕ} (x y : Fin n → ℝ) (hx : x ≠ 0) :
    spherical_dist_loss x x = 0 ∧
    spherical_dist_loss x (-x) = Real.pi ^ 2 / 2 ∧
    0 ≤ spherical_dist_loss x y ∧
    spherical_dist_loss x y ≤ Real.pi ^ 2 / 2 := by
  refine ⟨?_, ?_, ?_, ?_⟩
  · unfold spherical_dist_loss
    rw [norm2_dot_self hx, Real.arccos_one]
    norm_num
  · unfold spherical_dist_loss
    rw [norm2_neg]
    have hdot : ∑ i, norm2 x i * -norm2 x i = -1 := by
      simp only [mul_neg]
      rw [Finset.sum_neg_distrib, norm2_dot_self hx]
    rw [hdot, Real.arccos_neg_one]
  · unfold spherical_dist_loss
    positivity
  · unfold spherical_dist_loss
    have h1 := Real.arccos_nonneg (∑ i, norm2 x i * norm2 y i)
    have h2 := Real.arccos_le_pi (∑ i, norm2 x i * norm2 y i)
    nlinarith

/-- C5, witnessed at the one-dimensional vector with entry 1 (the zero
vector as second argument exercises the bounds conjuncts). -/
theorem spherical_dist_loss_bounds_witness :
    spherical_dist_loss (fun _ : Fin 1 => (1:ℝ)) (fun _ : Fin 1 => (1:ℝ)) = 0 ∧
    spherical_dist_loss (fun _ : Fin 1 => (1:ℝ)) (-(fun _ : Fin 1 => (1:ℝ))) = Real.pi ^ 2 / 2 ∧
    0 ≤ spherical_dist_loss (fun _ : Fin 1 => (1:ℝ)) (fun _ : Fin 1 => (0:ℝ)) ∧
    spherical_dist_loss (fun _ : Fin 1 => (1:ℝ)) (fun _ : Fin 1 => (0:ℝ)) ≤ Real.pi ^ 2 / 2 :=
  spherical_dist_loss_bounds (fun _ : Fin 1 => (1:ℝ)) (fun _ : Fin 1 => (0:ℝ))
    (fun h => by have h0 := congrFun h 0; norm_num at h0)

lemma norm2_pos_smul {n : ℕ} (a : ℝ) (ha : 0 < a) (x : Fin n → ℝ) :
    norm2 (fun i => a * x i) = norm2 x := by
  funext i
  simp only [norm2]
  have h1 : ∑ j, (a * x j) ^ 2 = a ^ 2 * ∑ j, x j ^ 2 := by
    rw [Finset.mul_sum]
    exact Finset.sum_congr rfl (fun j _ => mul_pow a (x j) 2)
  rw [h1, Real.sqrt_mul (sq_nonneg a), Real.sqrt_sq ha.le,
    mul_div_mul_left (x i) _ (ne_of_gt ha)]

/-- C6: the scorer is invariant under positive rescaling of either input. -/
theorem spherical_dist_loss_scale_invariant {n : ℕ} (x y : Fin n → ℝ) (a b : ℝ)
    (hx : x ≠ 0) (hy : y ≠ 0) (ha : 0 < a) (hb : 0 < b) :
    spherical_dist_loss (fun i => a * x i) (fun i => b * y i) = spherical_dist_loss x y := by
  unfold spherical_dist_loss
  rw [norm2_pos_smul a ha x, norm2_pos_smul b hb y]

/-- C6, witnessed with scales 2 and 3 on one-dimensional unit vectors. -/
theorem spherical_dist_loss_scale_invariant_witness :
    spherical_dist_loss (fun i : Fin 1 => 2 * (fun _ : Fin 1 => (1:ℝ)) i)
        (fun i : Fin 1 => 3 * (fun _ : Fin 1 => (1:ℝ)) i) =
      spherical_dist_loss (fun _ : Fin 1 => (1:ℝ)) (fun _ : Fin 1 => (1:ℝ)) :=
  spherical_dist_loss_scale_invariant (fun _ : Fin 1 => (1:ℝ)) (fun _ : Fin 1 => (1:ℝ)) 2 3
    (fun h => by have h0 := congrFun h 0; norm_num at h0)
    (fun h => by have h0 := congrFun h 0; norm_num at h0)
    (by norm_num) (by norm_num)

/-- jax.random.PRNGKey, modelled as the seed value itself; keys are opaque
to the script. -/
def PRNGKey (seed : ℕ) : ℕ := seed

/-- make_normalize (src lines 55-62): channel mean/std normalization; the
broadcast of the reshaped [3,1,1] constants is modelled by giving every
pixel index its channel mean and std. -/
noncomputable def make_normalize {κ : Type} (mean std : κ → ℝ) (image : κ → ℝ) : κ → ℝ :=
  fun i => (image i - mean i) / std i

/-- The external collaborators and startup state captured by the closures
clip_cond_fn_loss and clip_cond_fn (src lines 142-166): the denoiser apply
function (taking the parameters, a random key, the latent, the timestep that
the code broadcasts over the batch, and the extra arguments), the
noise-schedule conversion t_to_alpha_sigma, the differentiable augmentation
of src lines 147-154 (resize, edge pad, random scale-and-translate) as one
function of the key and the predicted image, the CLIP image encoder
returning one embedding per batch example, the channel statistics fed to
make_normalize, the two target embedding sets with their weight lists, and
the guidance scale.  Latents index over I, augmented images over K, batch
examples over B, embeddings over Fin d. -/
structure GuidanceCtx (I K B : Type) [Fintype B] (d : ℕ) (P C T E : Type) where
  modelApply : P → ℕ → (I → ℝ) → T → E → (I → ℝ)
  t_to_alpha_sigma : T → ℝ × ℝ
  augment : ℕ → (I → ℝ) → (K → ℝ)
  image_fn : C → (K → ℝ) → B → Fin d → ℝ
  mean : K → ℝ
  std : K → ℝ
  target_embeds : List (Fin d → ℝ)
  target_w : List ℝ
  target_img_embeds : List (Fin d → ℝ)
  target_img_w : List ℝ
  clip_guidance_scale : ℝ

/-- clip_cond_fn_loss (src lines 142-161): the denoiser is evaluated with
the fixed dummy key PRNGKey 0 to get the velocity v, the predicted clean
image is x*alpha - v*sigma with (alpha, sigma) from t, the prediction is
augmented, rescaled from [-1,1] to [0,1], normalized and encoded, and the
spherical distances to each target are summed over the batch, weighted, and
accumulated in source order: first the text targets, then the image
targets, both starting from total_loss = 0. -/
noncomputable def clip_cond_fn_loss {I K B : Type} [Fintype B] {d : ℕ} {P C T E : Type}
    (ctx : GuidanceCtx I K B d P C T E)
    (x : I → ℝ) (key : ℕ) (params : P) (clip_params : C) (t : T) (extra_args : E) : ℝ :=
  let v := ctx.modelApply params (PRNGKey 0) x t extra_args
  let alpha := (ctx.t_to_alpha_sigma t).1
  let sigma := (ctx.t_to_alpha_sigma t).2
  let pred := fun i => x i * alpha - v i * sigma
  let clip_in := ctx.augment key pred
  let image_embeds := ctx.image_fn clip_params (make_normalize ctx.mean ctx.std (fun i => (clip_in i + 1) / 2))
  let loss1 := (ctx.target_embeds.zip ctx.target_w).foldl
      (fun acc tw => acc + (∑ b, spherical_dist_loss (image_embeds b) tw.1) * tw.2) 0
  (ctx.target_img_embeds.zip ctx.target_img_w).foldl
      (fun acc tw => acc + (∑ b, spherical_dist_loss (image_embeds b) tw.1) * tw.2) loss1

/-- clip_cond_fn (src lines 163-166): jax.grad, the external reverse-mode
gradient operator, is the parameter gradOp; the function applies it to the
loss as a function of the latent x alone and multiplies the gradient
elementwise by the negated guidance scale.  The result indexes over I, the
same shape as x. -/
noncomputable def clip_cond_fn {I K B : Type} [Fintype B] {d : ℕ} {P C T E : Type}
    (ctx : GuidanceCtx I K B d P C T E)
    (gradOp : ((I → ℝ) → ℝ) → (I → ℝ) → I → ℝ)
    (x : I → ℝ) (key : ℕ) (t : T) (extra_args : E) (params : P) (clip_params : C) : I → ℝ :=
  fun i => gradOp (fun x0 => clip_cond_fn_loss ctx x0 key params clip_params t extra_args) x i *
    (-ctx.clip_guidance_scale)

/-- The total guidance loss as claim C1 words it: the denoiser velocity v at
(x, t), the predicted clean image pred = x*alpha - v*sigma with (alpha,
sigma) taken from t, pred augmented and encoded, and the sum over all text
targets and all image targets of weight times spherical distance (itself
summed over the batch). -/
noncomputable def specTotalLoss {I K B : Type} [Fintype B] {d : ℕ} {P C T E : Type}
    (ctx : GuidanceCtx I K B d P C T E)
    (key : ℕ) (params : P) (clip_params : C) (t : T) (extra_args : E) (x : I → ℝ) : ℝ :=
  let v := ctx.modelApply params (PRNGKey 0) x t extra_args
  let pred := fun i => x i * (ctx.t_to_alpha_sigma t).1 - v i * (ctx.t_to_alpha_sigma t).2
  let embeds := ctx.image_fn clip_params
    (make_normalize ctx.mean ctx.std (fun i => (ctx.augment key pred i + 1) / 2))
  ((ctx.target_embeds.zip ctx.target_w).map
      (fun tw => tw.2 * ∑ b, spherical_dist_loss (embeds b) tw.1)).sum +
  ((ctx.target_img_embeds.zip ctx.target_img_w).map
      (fun tw => tw.2 * ∑ b, spherical_dist_loss (embeds b) tw.1)).sum

lemma foldl_add_mul {α : Type} (f g : α → ℝ) (l : List α) (init : ℝ) :
    l.foldl (fun acc a => acc + f a * g a) init = init + (l.map (fun a => g a * f a)).sum := by
  induction l generalizing init with
  | nil => simp
  | cons a l ih =>
    rw [List.foldl_cons, ih, List.map_cons, List.sum_cons]
    ring

/-- C1: for every latent, timestep, key and target sets, clip_cond_fn is the
negated guidance-scale multiple of the reverse-mode gradient, with respect
to x, of the total loss described by the specification (velocity, pred =
x*alpha - v*sigma, augment, encode, weighted spherical distances summed over
both target sets); being a function over the same index type I, the result
has the same shape as x. -/
theorem clip_cond_fn_matches_spec {I K B : Type} [Fintype B] {d : ℕ} {P C T E : Type}
    (ctx : GuidanceCtx I K B d P C T E)
    (gradOp : ((I → ℝ) → ℝ) → (I → ℝ) → I → ℝ)
    (x : I → ℝ) (key : ℕ) (t : T) (extra_args : E) (params : P) (clip_params : C) :
    clip_cond_fn ctx gradOp x key t extra_args params clip_params =
      fun i => -ctx.clip_guidance_scale *
        gradOp (specTotalLoss ctx key params clip_params t extra_args) x i := by
  have hloss : (fun x0 => clip_cond_fn_loss ctx x0 key params clip_params t extra_args) =
      specTotalLoss ctx key params clip_params t extra_args := by
    funext x0
    simp only [clip_cond_fn_loss, specTotalLoss]
    rw [foldl_add_mul, foldl_add_mul]
    ring
  funext i
  simp only [clip_cond_fn, hloss]
  ring

/-- C2: when both target embedding sets are empty the loss is the constant
zero function, so for any gradient operator that sends constant functions to
zero (as reverse-mode differentiation does) clip_cond_fn returns the zero
tensor of the same shape as x. -/
theorem clip_cond_fn_zero_when_no_targets {I K B : Type} [Fintype B] {d : ℕ} {P C T E : Type}
    (ctx : GuidanceCtx I K B d P C T E)
    (h1 : ctx.target_embeds = []) (h2 : ctx.target_img_embeds = [])
    (gradOp : ((I → ℝ) → ℝ) → (I → ℝ) → I → ℝ)
    (hgrad : ∀ (c : ℝ) (x0 : I → ℝ) (i : I), gradOp (fun _ => c) x0 i = 0)
    (x : I → ℝ) (key : ℕ) (t : T) (extra_args : E) (params : P) (clip_params : C) :
    clip_cond_fn ctx gradOp x key t extra_args params clip_params = fun _ => 0 := by
  have hloss : (fun x0 => clip_cond_fn_loss ctx x0 key params clip_params t extra_args) =
      fun _ => (0:ℝ) := by
    funext x0
    simp [clip_cond_fn_loss, h1, h2]
  funext i
  simp only [clip_cond_fn, hloss, hgrad, neg_mul, zero_mul, mul_neg, neg_zero]

/-- C2, witnessed on a fully concrete one-pixel context with empty target
sets and the zero gradient operator. -/
theorem clip_cond_fn_zero_when_no_targets_witness :
    clip_cond_fn
      ({ modelApply := fun _ _ x0 _ _ => x0, t_to_alpha_sigma := fun _ => (1, 0),
         augment := fun _ p => p, image_fn := fun _ _ _ _ => 0,
         mean := fun _ => 0, std := fun _ => 1,
         target_embeds := [], target_w := [], target_img_embeds := [], target_img_w := [],
         clip_guidance_scale := 1000 } :
        GuidanceCtx (Fin 1) (Fin 1) (Fin 1) 1 Unit Unit Unit Unit)
      (fun _ _ _ => 0) (fun _ => 0) 0 () () () () = fun _ => 0 :=
  clip_cond_fn_zero_when_no_targets _ rfl rfl _ (fun _ _ _ => rfl) _ _ _ _ _ _

/-- CLIP input resolution R (src line 113). -/
def clip_size : ℕ := 224

/-- CLIP patch granularity P (src line 112). -/
def clip_patch_size : ℕ := 16

/-- extent = clip_patch_size // 2 (src line 148). -/
def extent : ℕ := clip_patch_size / 2

/-- Shape of a batched image tensor [batch, channels, height, width]. -/
structure Shape4 where
  n : ℕ
  c : ℕ
  h : ℕ
  w : ℕ
  deriving DecidableEq

/-- Shape effect of jax.image.resize to (*shape[:2], clip_size, clip_size)
(src line 147). -/
def resizeShape (s : Shape4) : Shape4 :=
  { s with h := clip_size, w := clip_size }

/-- Shape effect of the edge pad by e on each spatial side (src line 149). -/
def padShape (s : Shape4) (e : ℕ) : Shape4 :=
  { s with h := s.h + 2 * e, w := s.w + 2 * e }

/-- Shape effect of the vmapped jax.image.scale_and_translate with output
shape (3, clip_size, clip_size) per example (src lines 150-154). -/
def satOutShape (s : Shape4) : Shape4 :=
  { s with c := 3, h := clip_size, w := clip_size }

/-- Shape of the augmentation pipeline of clip_cond_fn_loss (src lines
147-154): resize to clip_size, edge-pad by extent, crop back via
scale-and-translate. -/
def augmentShape (s : Shape4) : Shape4 :=
  satOutShape (padShape (resizeShape s) extent)

/-- The scales argument jnp.ones([batch, 2]) (src line 152). -/
noncomputable def scalesArr (b : ℕ) : Fin b → Fin 2 → ℝ := fun _ _ => 1

/-- The translates argument (src line 153): jax.random.uniform with
minval = -extent and maxval = extent, modelled as
minval + u * (maxval - minval) over a base draw u in [0, 1) per example and
axis. -/
noncomputable def translatesArr (b : ℕ) (u : Fin b → Fin 2 → ℝ) : Fin b → Fin 2 → ℝ :=
  fun i j => -(extent : ℝ) + u i j * ((extent : ℝ) - -(extent : ℝ))

/-- C8: for any input shape the augmentation pipeline output has spatial
size exactly clip_size by clip_size (R = 224) and keeps the batch size; the
resize step already produces R by R, the pad step adds extent = P/2 = 8
pixels on each spatial side, and the crop back is a scale-and-translate with
scale 1.0 and per-example translations inside [-extent, extent]. -/
theorem augment_output_shape (s : Shape4) (b : ℕ) (u : Fin b → Fin 2 → ℝ)
    (i : Fin b) (j : Fin 2) (h0 : 0 ≤ u i j) (h1 : u i j < 1) :
    augmentShape s = ⟨s.n, 3, clip_size, clip_size⟩ ∧
    resizeShape s = ⟨s.n, s.c, clip_size, clip_size⟩ ∧
    padShape (resizeShape s) extent = ⟨s.n, s.c, clip_size + 2 * extent, clip_size + 2 * extent⟩ ∧
    clip_size = 224 ∧ extent = clip_patch_size / 2 ∧ extent = 8 ∧
    scalesArr b i j = 1 ∧
    -(extent : ℝ) ≤ translatesArr b u i j ∧ translatesArr b u i j ≤ (extent : ℝ) := by
  have he : (extent : ℝ) = 8 := by norm_num [extent, clip_patch_size]
  refine ⟨rfl, rfl, rfl, rfl, rfl, rfl, rfl, ?_, ?_⟩
  · simp only [translatesArr, he]
    nlinarith
  · simp only [translatesArr, he]
    nlinarith

/-- C8, witnessed at input shape [2, 3, 100, 50], batch 1 and base draw
one-half. -/
theorem augment_output_shape_witness :
    augmentShape ⟨2, 3, 100, 50⟩ = ⟨2, 3, clip_size, clip_size⟩ ∧
    resizeShape ⟨2, 3, 100, 50⟩ = ⟨2, 3, clip_size, clip_size⟩ ∧
    padShape (resizeShape ⟨2, 3, 100, 50⟩) extent =
      ⟨2, 3, clip_size + 2 * extent, clip_size + 2 * extent⟩ ∧
    clip_size = 224 ∧ extent = clip_patch_size / 2 ∧ extent = 8 ∧
    scalesArr 1 0 0 = 1 ∧
    -(extent : ℝ) ≤ translatesArr 1 (fun _ _ => (1:ℝ)/2) 0 0 ∧
    translatesArr 1 (fun _ _ => (1:ℝ)/2) 0 0 ≤ (extent : ℝ) :=
  augment_output_shape ⟨2, 3, 100, 50⟩ 1 (fun _ _ => (1:ℝ)/2) 0 0
    (by norm_num) (by norm_num)

/-- The init-image branch of run (src lines 179-182): the schedule is masked
to the entries strictly below the starting timestep
(`steps = steps[steps < args.starting_timestep]`, an order-preserving
boolean-mask filter), (alpha, sigma) are recomputed at the first remaining
entry, and the latent becomes init*alpha + noise*sigma; none models the
failing steps[0] indexing when the truncated schedule is empty.  Timesteps
and pixels are modelled as rationals; the already-built schedule and the
external t_to_alpha_sigma conversion are inputs. -/
def run_init_branch {I : Type} (t_to_alpha_sigma : ℚ → ℚ × ℚ)
    (steps : List ℚ) (starting_timestep : ℚ) (init noise : I → ℚ) :
    Option (List ℚ × (I → ℚ)) :=
  match steps.filter (fun t => t < starting_timestep) with
  | [] => none
  | t0 :: rest =>
    let alpha := (t_to_alpha_sigma t0).1
    let sigma := (t_to_alpha_sigma t0).2
    some (t0 :: rest, fun i => init i * alpha + noise i * sigma)

/-- C7: whenever an init image is supplied and the truncated schedule is
the nonempty list t0 :: rest, the branch returns exactly the entries of the
built schedule strictly below the starting fraction, the latent
init*alpha + noise*sigma with (alpha, sigma) recomputed at the first entry
t0 of the truncated schedule, and every schedule entry that will be
iterated is strictly below the starting fraction. -/
theorem run_init_truncates_schedule {I : Type} (t_to_alpha_sigma : ℚ → ℚ × ℚ)
    (steps : List ℚ) (f : ℚ) (init noise : I → ℚ) (t0 : ℚ) (rest : List ℚ)
    (h : steps.filter (fun t => t < f) = t0 :: rest) :
    run_init_branch t_to_alpha_sigma steps f init noise =
      some (t0 :: rest,
        fun i => init i * (t_to_alpha_sigma t0).1 + noise i * (t_to_alpha_sigma t0).2) ∧
    (∀ t ∈ t0 :: rest, t < f) := by
  constructor
  · simp only [run_init_branch, h]
  · intro t ht
    have hmem : t ∈ steps.filter (fun t => t < f) := h ▸ ht
    simpa using (List.mem_filter.mp hmem).2

/-- C7, witnessed on the schedule [19/20, 4/5, 1/2] with starting fraction
9/10: the truncated schedule is [4/5, 1/2] and the latent mixes init and
noise with the coefficients recomputed at 4/5. -/
theorem run_init_truncates_schedule_witness :
    run_init_branch (fun t => (t, 1 - t)) [(19:ℚ)/20, 4/5, 1/2] (9/10)
        (fun _ : Fin 1 => 2) (fun _ : Fin 1 => 3) =
      some ([(4:ℚ)/5, 1/2],
        fun i => (fun _ : Fin 1 => (2:ℚ)) i * ((fun t : ℚ => (t, 1 - t)) ((4:ℚ)/5)).1 +
          (fun _ : Fin 1 => (3:ℚ)) i * ((fun t : ℚ => (t, 1 - t)) ((4:ℚ)/5)).2) ∧
    (∀ t ∈ [(4:ℚ)/5, 1/2], t < 9/10) :=
  run_init_truncates_schedule (fun t => (t, 1 - t)) [(19:ℚ)/20, 4/5, 1/2] (9/10)
    (fun _ : Fin 1 => 2) (fun _ : Fin 1 => 3) ((4:ℚ)/5) [(1:ℚ)/2] (by norm_num [List.filter])

/-- The Python format spec {:05}: decimal digits left-padded with zeros to
width at least 5 (src line 191). -/
def pad5 (k : ℕ) : String :=
  String.mk (List.replicate (5 - (toString k).length) '0') ++ toString k

/-- The output filename f-string of run_all (src line 191). -/
def outName (k : ℕ) : String := "out_" ++ pad5 k ++ ".png"

/-- Python range(i, i + r, bs) for bs >= 1: the start indices the batch loop
visits while r samples remain, i.e. ceil(r / bs) many, stepping by bs. -/
def suffixList (i r bs : ℕ) : List ℕ :=
  (List.range ((r + bs - 1) / bs)).map (fun k => i + k * bs)

/-- Python trange(0, n, batch_size) of run_all (src line 186). -/
def rangeStep (n bs : ℕ) : List ℕ :=
  (List.range ((n + bs - 1) / bs)).map (fun k => k * bs)

/-- The loop body of run_all (src lines 186-191) over a list of start
indices: at index i the key is split and replaced with the first component
(the second, subkey, is unused by the body), cur_batch_size is
min(n - i, batch_size), run is invoked with the new key and cur_batch_size,
and each image of the returned batch is saved as out_<i+j> with j the
enumeration index.  Each trace entry records the key handed to run, the
requested batch size, and the filenames written.  run itself (the sampler)
is the external parameter runOut, returning a list of images of type I. -/
def runAllTrace {K I : Type} (split : K → K × K) (runOut : K → ℕ → List I)
    (n bs : ℕ) : List ℕ → K → List (K × ℕ × List String)
  | [], _ => []
  | i :: rest, key =>
    let key2 := (split key).1
    let cur := min (n - i) bs
    (key2, cur, (List.range (runOut key2 cur).length).map (fun j => outName (i + j))) ::
      runAllTrace split runOut n bs rest key2

/-- run_all (src lines 185-191): the loop body driven over
trange(0, n, batch_size) starting from the caller's key. -/
def run_all {K I : Type} (split : K → K × K) (runOut : K → ℕ → List I)
    (key : K) (n bs : ℕ) : List (K × ℕ × List String) :=
  runAllTrace split runOut n bs (rangeStep n bs) key

lemma suffixList_zero (i bs : ℕ) (hbs : 1 ≤ bs) : suffixList i 0 bs = [] := by
  unfold suffixList
  rw [show (0 + bs - 1) / bs = 0 from Nat.div_eq_of_lt (by omega)]
  rfl

lemma suffixList_cons (i r bs : ℕ) (hbs : 1 ≤ bs) (hr : 1 ≤ r) :
    suffixList i r bs = i :: suffixList (i + bs) (r - bs) bs := by
  unfold suffixList
  have hcount : (r + bs - 1) / bs = (r - bs + bs - 1) / bs + 1 := by
    rcases le_or_lt r bs with hle | hlt
    · have h1 : r - bs = 0 := by omega
      have h2 : (0 + bs - 1) / bs = 0 := Nat.div_eq_of_lt (by omega)
      have h3 : r + bs - 1 = (r - 1) + bs := by omega
      have h4 : (r - 1) / bs = 0 := Nat.div_eq_of_lt (by omega)
      rw [h1, h2, h3, Nat.add_div_right _ (by omega), h4]
    · have h3 : r + bs - 1 = (r - bs + bs - 1) + bs := by omega
      rw [h3, Nat.add_div_right _ (by omega)]
  rw [hcount, List.range_succ_eq_map]
  simp only [List.map_cons, List.map_map, Nat.zero_mul, Nat.add_zero]
  congr 1
  have hfe : ((fun k => i + k * bs) ∘ Nat.succ) = (fun k => i + bs + k * bs) :=
    funext fun k => by simp [Function.comp, Nat.succ_eq_add_one]; ring
  rw [hfe]

lemma runAllTrace_sum {K I : Type} (split : K → K × K) (runOut : K → ℕ → List I)
    (n bs : ℕ) (hbs : 1 ≤ bs) :
    ∀ r, ∀ i : ℕ, ∀ key : K, i + r = n →
      ((runAllTrace split runOut n bs (suffixList i r bs) key).map (fun e => e.2.1)).sum = r := by
  intro r
  induction r using Nat.strong_induction_on with
  | _ r IH =>
    intro i key hin
    rcases Nat.eq_zero_or_pos r with hr | hr
    · subst hr
      rw [suffixList_zero _ _ hbs]
      simp [runAllTrace]
    · rw [suffixList_cons _ _ _ hbs hr]
      simp only [runAllTrace, List.map_cons, List.sum_cons]
      rcases le_or_lt bs r with hbr | hrb
      · have htail := IH (r - bs) (by omega) (i + bs) ((split key).1) (by omega)
        rw [htail]
        omega
      · have h0 : r - bs = 0 := by omega
        rw [h0, suffixList_zero _ _ hbs]
        simp [runAllTrace]
        omega

lemma runAllTrace_names {K I : Type} (split : K → K × K) (runOut : K → ℕ → List I)
    (n bs : ℕ) (hlen : ∀ k m, (runOut k m).length = m) (hbs : 1 ≤ bs) :
    ∀ r, ∀ i : ℕ, ∀ key : K, i + r = n →
      ((runAllTrace split runOut n bs (suffixList i r bs) key).flatMap (fun e => e.2.2)) =
        (List.range r).map (fun j => outName (i + j)) := by
  intro r
  induction r using Nat.strong_induction_on with
  | _ r IH =>
    intro i key hin
    rcases Nat.eq_zero_or_pos r with hr | hr
    · subst hr
      rw [suffixList_zero _ _ hbs]
      simp [runAllTrace]
    · rw [suffixList_cons _ _ _ hbs hr]
      simp only [runAllTrace, List.flatMap_cons, hlen]
      rcases le_or_lt bs r with hbr | hrb
      · have hmin : min (n - i) bs = bs := by omega
        have htail := IH (r - bs) (by omega) (i + bs) ((split key).1) (by omega)
        have hsplit : (List.range r).map (fun j => outName (i + j)) =
            (List.range bs).map (fun j => outName (i + j)) ++
              (List.range (r - bs)).map (fun j => outName (i + bs + j)) := by
          conv_lhs => rw [show r = bs + (r - bs) from by omega]
          rw [List.range_add, List.map_append, List.map_map]
          have hfe : ((fun j => outName (i + j)) ∘ (fun x => bs + x)) =
              (fun j => outName (i + bs + j)) :=
            funext fun j => congrArg outName (by show i + (bs + j) = i + bs + j; omega)
          rw [hfe]
        rw [hmin, htail, hsplit]
      · have h0 : r - bs = 0 := by omega
        have hmin : min (n - i) bs = r := by omega
        rw [h0, suffixList_zero _ _ hbs, hmin]
        simp [runAllTrace]

lemma runAllTrace_sizes {K I : Type} (split : K → K × K) (runOut : K → ℕ → List I)
    (n bs : ℕ) (hbs : 1 ≤ bs) :
    ∀ r, ∀ i : ℕ, ∀ key : K, i + r = n → ∀ m,
      m < (runAllTrace split runOut n bs (suffixList i r bs) key).length →
      ((runAllTrace split runOut n bs (suffixList i r bs) key).map (fun e => e.2.1)).getD m 0 =
        min bs (r -
          (((runAllTrace split runOut n bs (suffixList i r bs) key).map (fun e => e.2.1)).take m).sum) := by
  intro r
  induction r using Nat.strong_induction_on with
  | _ r IH =>
    intro i key hin m hm
    rcases Nat.eq_zero_or_pos r with hr | hr
    · subst hr
      rw [suffixList_zero _ _ hbs] at hm
      simp [runAllTrace] at hm
    · rw [suffixList_cons _ _ _ hbs hr] at hm ⊢
      cases m with
      | zero =>
        simp only [runAllTrace, List.map_cons, List.getD_cons_zero, List.take_zero,
          List.sum_nil, Nat.sub_zero]
        omega
      | succ m0 =>
        rcases le_or_lt bs r with hbr | hrb
        · have hm0 : m0 <
              (runAllTrace split runOut n bs (suffixList (i + bs) (r - bs) bs) ((split key).1)).length := by
            simp only [runAllTrace, List.length_cons] at hm
            omega
          have htail := IH (r - bs) (by omega) (i + bs) ((split key).1) (by omega) m0 hm0
          simp only [runAllTrace, List.map_cons, List.getD_cons_succ, List.take_succ_cons,
            List.sum_cons]
          rw [htail]
          omega
        · have h0 : r - bs = 0 := by omega
          rw [h0, suffixList_zero _ _ hbs] at hm
          simp [runAllTrace] at hm

lemma runAllTrace_keys {K I : Type} (split : K → K × K) (runOut : K → ℕ → List I)
    (n bs : ℕ) (hbs : 1 ≤ bs) :
    ∀ r, ∀ i : ℕ, ∀ key d : K, ∀ m,
      m < (runAllTrace split runOut n bs (suffixList i r bs) key).length →
      ((runAllTrace split runOut n bs (suffixList i r bs) key).map (fun e => e.1)).getD m d =
        (fun k => (split k).1)^[m + 1] key := by
  intro r
  induction r using Nat.strong_induction_on with
  | _ r IH =>
    intro i key d m hm
    rcases Nat.eq_zero_or_pos r with hr | hr
    · subst hr
      rw [suffixList_zero _ _ hbs] at hm
      simp [runAllTrace] at hm
    · rw [suffixList_cons _ _ _ hbs hr] at hm ⊢
      cases m with
      | zero =>
        simp [runAllTrace]
      | succ m0 =>
        rcases le_or_lt bs r with hbr | hrb
        · have hm0 : m0 <
              (runAllTrace split runOut n bs (suffixList (i + bs) (r - bs) bs) ((split key).1)).length := by
            simp only [runAllTrace, List.length_cons] at hm
            omega
          have htail := IH (r - bs) (by omega) (i + bs) ((split key).1) d m0 hm0
          simp only [runAllTrace, List.map_cons, List.getD_cons_succ]
          rw [htail]
          conv_rhs => rw [Function.iterate_succ_apply]
        · have h0 : r - bs = 0 := by omega
          rw [h0, suffixList_zero _ _ hbs] at hm
          simp [runAllTrace] at hm

lemma rangeStep_eq_suffixList (n bs : ℕ) : rangeStep n bs = suffixList 0 n bs := by
  unfold rangeStep suffixList
  have hf : (fun k : ℕ => 0 + k * bs) = (fun k : ℕ => k * bs) :=
    funext fun k => Nat.zero_add _
  rw [hf]

/-- C9: for n >= 1 samples and batch size >= 1, and any sampler runOut that
returns as many images as requested, run_all requests exactly
min(batch_size, n - produced) samples in each batch (produced being the sum
of the earlier batch sizes), produces exactly n samples in total, saves them
under out_00000.png through out_<n-1>.png (zero-padded width 5, in order),
and hands the m-th batch a key obtained by m+1 successive splits of the
caller's key. -/
theorem run_all_spec {K I : Type} (split : K → K × K) (runOut : K → ℕ → List I)
    (key : K) (n bs : ℕ) (hlen : ∀ k m, (runOut k m).length = m)
    (hn : 1 ≤ n) (hbs : 1 ≤ bs) (m : ℕ)
    (hm : m < (run_all split runOut key n bs).length) :
    ((run_all split runOut key n bs).map (fun e => e.2.1)).sum = n ∧
    ((run_all split runOut key n bs).flatMap (fun e => e.2.2)) = (List.range n).map outName ∧
    ((run_all split runOut key n bs).map (fun e => e.2.1)).getD m 0 =
      min bs (n - (((run_all split runOut key n bs).map (fun e => e.2.1)).take m).sum) ∧
    ((run_all split runOut key n bs).map (fun e => e.1)).getD m key =
      (fun k => (split k).1)^[m + 1] key := by
  have hbridge : run_all split runOut key n bs =
      runAllTrace split runOut n bs (suffixList 0 n bs) key := by
    rw [run_all, rangeStep_eq_suffixList]
  rw [hbridge] at hm ⊢
  refine ⟨runAllTrace_sum split runOut n bs hbs n 0 key (by omega), ?_, ?_, ?_⟩
  · have h := runAllTrace_names split runOut n bs hlen hbs n 0 key (by omega)
    rw [h]
    have hz : (fun j => outName (0 + j)) = outName := funext fun j => by rw [Nat.zero_add]
    rw [hz]
  · exact runAllTrace_sizes split runOut n bs hbs n 0 key (by omega) m hm
  · exact runAllTrace_keys split runOut n bs hbs n 0 key key m hm

/-- C9, witnessed with n = 3, batch size 2, seed key 0, a key splitter over
naturals, and a sampler returning range(m): the two batches have sizes 2 and
1 and the files are out_00000.png, out_00001.png, out_00002.png. -/
theorem run_all_spec_witness :
    ((run_all (fun k : ℕ => (k + 1, k + 100)) (fun _ m => List.range m) 0 3 2).map
        (fun e => e.2.1)).sum = 3 ∧
    ((run_all (fun k : ℕ => (k + 1, k + 100)) (fun _ m => List.range m) 0 3 2).flatMap
        (fun e => e.2.2)) = (List.range 3).map outName ∧
    ((run_all (fun k : ℕ => (k + 1, k + 100)) (fun _ m => List.range m) 0 3 2).map
        (fun e => e.2.1)).getD 0 0 =
      min 2 (3 - (((run_all (fun k : ℕ => (k + 1, k + 100)) (fun _ m => List.range m) 0 3 2).map
        (fun e => e.2.1)).take 0).sum) ∧
    ((run_all (fun k : ℕ => (k + 1, k + 100)) (fun _ m => List.range m) 0 3 2).map
        (fun e => e.1)).getD 0 0 =
      (fun k => ((fun k0 : ℕ => (k0 + 1, k0 + 100)) k).1)^[0 + 1] 0 :=
  run_all_spec (fun k : ℕ => (k + 1, k + 100)) (fun _ m => List.range m) 0 3 2
    (fun _ m => by simp) (by omega) (by omega) 0 (by decide)
